import Mathlib

/-
Verification of the ipfs-search consumption layer: the queue Worker
(src/queue/worker.go) and the existing-item reconciliation logic
(package crawler). Shallow embedding: Go structs become Lean structures,
nil-vs-non-nil slices become Option (List _), external capabilities
(Indexer.IndexItem, Indexer.GetReferences, skipItem, the queue transport)
become function parameters, and side effects (ack/reject calls, index
writes) are made explicit as returned effect traces.
-/

namespace IpfsSearch

/-- Models Go error values: errors.New / fmt.Errorf produce a fresh error
carrying a message string. -/
inductive GoError
  | new (msg : String)
deriving DecidableEq, Repr

/-- Reference from the indexer package: one provenance edge {Name, ParentHash}. -/
structure Reference where
  Name : String
  ParentHash : String
deriving DecidableEq, Repr

/-- Indexable: one crawl candidate. The Indexer capability is modelled as
function parameters where used. -/
structure Indexable where
  Hash : String
  Name : String
  ParentHash : String
deriving DecidableEq, Repr

/-- existingItem from package crawler. The embedded *Indexable becomes
`extends`; the Go nil-able slice `references []indexer.Reference` becomes
an Option. The field spelled `exists` in Go is `exists_` here. -/
structure existingItem extends Indexable where
  exists_ : Bool
  references : Option (List Reference)
  itemType : String
deriving DecidableEq, Repr

/-- updateReferences from package crawler: if references is nil, initialize
to an empty collection and return; if ParentHash is empty, do nothing;
if some existing reference has the same ParentHash, do nothing; otherwise
append {Name, ParentHash}. The Go for-loop with early return is the
List.any scan. -/
def updateReferences (i : existingItem) : existingItem :=
  match i.references with
  | none => { i with references := some [] }
  | some refs =>
    if i.ParentHash = "" then
      i
    else if refs.any fun reference => reference.ParentHash == i.ParentHash then
      i
    else
      { i with references := some (refs ++ [{ Name := i.Name, ParentHash := i.ParentHash }]) }

/-- metadata map built by updateIndex: keys "references" and "last-seen". -/
structure metadata where
  references : Option (List Reference)
  lastSeen : String
deriving DecidableEq, Repr

/-- One call to Indexer.IndexItem, recorded as an effect: the itemType,
hash and properties passed. -/
structure IndexCall where
  itemType : String
  Hash : String
  properties : metadata
deriving DecidableEq, Repr

/-- updateIndex from package crawler: builds the properties map and calls
Indexer.IndexItem once, returning its error. The IndexItem capability and
the nowISO() timestamp are parameters; the list records the calls made. -/
def updateIndex (IndexItem : String → String → metadata → Option GoError)
    (nowISO : String) (i : existingItem) : List IndexCall × Option GoError :=
  let properties : metadata := { references := i.references, lastSeen := nowISO }
  ([{ itemType := i.itemType, Hash := i.Hash, properties := properties }],
    IndexItem i.itemType i.Hash properties)

/-- update from package crawler: updateReferences unconditionally, then
updateIndex only if the item exists. Returns the mutated item, the index
calls performed, and the returned error. -/
def update (IndexItem : String → String → metadata → Option GoError)
    (nowISO : String) (i : existingItem) :
    existingItem × List IndexCall × Option GoError :=
  let i' := updateReferences i
  if i'.exists_ then
    let r := updateIndex IndexItem nowISO i'
    (i', r.1, r.2)
  else
    (i', [], none)

/-- getExistingItem from package crawler: the Indexer.GetReferences call
result is a parameter (error, or a possibly-nil reference list plus the
item type). On error it is propagated; otherwise the item is built with
`exists` true iff the references collection is non-nil. -/
def getExistingItem (GetReferences : Except GoError (Option (List Reference) × String))
    (i : Indexable) : Except GoError existingItem :=
  match GetReferences with
  | .error e => .error e
  | .ok (references, itemType) =>
      .ok { toIndexable := i
            exists_ := references.isSome
            references := references
            itemType := itemType }

/-- shouldCrawl from package crawler: `!i.skipItem() || !i.exists`; the
external skip policy is a Bool parameter. -/
def shouldCrawl (skipItem : Bool) (i : existingItem) : Bool :=
  !skipItem || !i.exists_

namespace Queue

/-- Value a Go panic can carry, as discriminated by recoverPanic's type
switch: a string, an error, or some other value (kept as its fmt %v
formatting). -/
inductive PanicValue
  | str (s : String)
  | err (e : GoError)
  | other (formatted : String)
deriving DecidableEq, Repr

/-- One terminal call on an amqp delivery: Ack(multiple) or Reject(requeue). -/
inductive AckAction
  | ack (multiple : Bool)
  | reject (requeue : Bool)
deriving DecidableEq, Repr

/-- What one invocation of the registered WorkerFunc did: returned nil,
returned an error, or panicked with a value. -/
inductive HandlerOutcome
  | ok
  | err (e : GoError)
  | panics (v : PanicValue)
deriving DecidableEq, Repr

/-- recoverPanic from worker.go: Reject(false), then derive the error from
the recovered value — errors.New for a string, the error itself when
error-typed, fmt.Errorf("Unassertable panic error: %v", r) otherwise.
Returns the ack/reject calls made and the resulting error. -/
def recoverPanic (r : PanicValue) : List AckAction × GoError :=
  ([AckAction.reject false],
    match r with
    | .str x => GoError.new x
    | .err x => x
    | .other f => GoError.new ("Unassertable panic error: " ++ f))

/-- Body of Process up to the deferred recover: run the handler; on error
Reject(false) and return the error; otherwise Ack(false) and return nil.
A handler panic aborts the body before any ack/reject call. -/
def ProcessBody (outcome : HandlerOutcome) :
    Except PanicValue (List AckAction × Option GoError) :=
  match outcome with
  | .ok => .ok ([AckAction.ack false], none)
  | .err e => .ok ([AckAction.reject false], some e)
  | .panics v => .error v

/-- Process from worker.go: the body wrapped in the deferred recover; a
recovered panic goes through recoverPanic, whose error overrides the
return value. The result is the list of ack/reject calls made and the
error Process returns. -/
def Process (outcome : HandlerOutcome) : List AckAction × Option GoError :=
  match ProcessBody outcome with
  | .ok r => r
  | .error v =>
      let r := recoverPanic v
      (r.1, some r.2)

/-- Work's per-delivery behaviour (worker.go consumption loop): each
delivered message is processed in order and Process's return value is
sent on ErrChan. The argument lists the handler outcome of each delivery;
the result lists the values the error channel receives, in order. -/
def Work (outcomes : List HandlerOutcome) : List (Option GoError) :=
  outcomes.map fun o => (Process o).2

end Queue

end IpfsSearch

open IpfsSearch IpfsSearch.Queue

/- Helper lemmas about updateReferences, shared by several claims. -/

/-- updateReferences on a non-nil collection, characterized by the two guards. -/
theorem updateReferences_some (i : existingItem) (l : List Reference)
    (h : i.references = some l) :
    updateReferences i =
      if i.ParentHash = "" then i
      else if l.any fun reference => reference.ParentHash == i.ParentHash then i
      else { i with references := some (l ++ [{ Name := i.Name, ParentHash := i.ParentHash }]) } := by
  unfold updateReferences
  rw [h]

/-- updateReferences on a nil collection initializes it to empty. -/
theorem updateReferences_none (i : existingItem) (h : i.references = none) :
    updateReferences i = { i with references := some [] } := by
  unfold updateReferences
  rw [h]

/-- updateReferences leaves the exists flag unchanged. -/
theorem updateReferences_exists (i : existingItem) :
    (updateReferences i).exists_ = i.exists_ := by
  rcases h : i.references with _ | l
  · rw [updateReferences_none i h]
  · rw [updateReferences_some i l h]
    split_ifs <;> rfl

/-- updateReferences leaves the itemType unchanged. -/
theorem updateReferences_itemType (i : existingItem) :
    (updateReferences i).itemType = i.itemType := by
  rcases h : i.references with _ | l
  · rw [updateReferences_none i h]
  · rw [updateReferences_some i l h]
    split_ifs <;> rfl

/-- updateReferences leaves the embedded Indexable unchanged. -/
theorem updateReferences_toIndexable (i : existingItem) :
    (updateReferences i).toIndexable = i.toIndexable := by
  rcases h : i.references with _ | l
  · rw [updateReferences_none i h]
  · rw [updateReferences_some i l h]
    split_ifs <;> rfl

/-- updateReferences only ever appends to the (defaulted-to-empty) prior list. -/
theorem updateReferences_references_append (i : existingItem) :
    ∃ t, (updateReferences i).references = some (i.references.getD [] ++ t) := by
  unfold updateReferences
  rcases h : i.references with _ | l
  · exact ⟨[], rfl⟩
  · simp only [Option.getD_some]
    split_ifs
    · exact ⟨[], by simp [h]⟩
    · exact ⟨[], by simp [h]⟩
    · exact ⟨[{ Name := i.Name, ParentHash := i.ParentHash }], rfl⟩

/-- C2: for every processed message exactly one of acknowledge/reject occurs,
on exactly one of the three paths (handler success acks, handler error
rejects, handler panic rejects); Process never double-acks or double-rejects. -/
theorem C2_one_shot_ack_decision (o : HandlerOutcome) :
    (Process o).1.length = 1 ∧
    (Process HandlerOutcome.ok).1 = [AckAction.ack false] ∧
    (∀ e, (Process (HandlerOutcome.err e)).1 = [AckAction.reject false]) ∧
    (∀ v, (Process (HandlerOutcome.panics v)).1 = [AckAction.reject false]) := by
  refine ⟨?_, rfl, fun e => rfl, fun v => rfl⟩
  cases o <;> rfl

/-- C3: a handler panic never escapes Process: it returns normally with the
message rejected with requeue=false, and the resulting error is a plain
error carrying the string for a string panic, the panic value itself when
error-typed, and otherwise an error wrapping the formatted value with the
"Unassertable panic error" message. -/
theorem C3_panic_contained (v : PanicValue) (s f : String) (e : GoError) :
    Process (HandlerOutcome.panics v) =
      ([AckAction.reject false], some (recoverPanic v).2) ∧
    (recoverPanic (PanicValue.str s)).2 = GoError.new s ∧
    (recoverPanic (PanicValue.err e)).2 = e ∧
    (recoverPanic (PanicValue.other f)).2 =
      GoError.new ("Unassertable panic error: " ++ f) := by
  exact ⟨rfl, rfl, rfl, rfl⟩

/-- C5: when the handler returns normally, a nil return acks the message and
the error channel receives nil at that message's position, and an error
return E rejects the message without requeue and the channel receives E
unchanged at that position. -/
theorem C5_normal_return_outcomes (pre post : List HandlerOutcome) (e : GoError) :
    (Process HandlerOutcome.ok).1 = [AckAction.ack false] ∧
    Work (pre ++ HandlerOutcome.ok :: post) = Work pre ++ none :: Work post ∧
    (Process (HandlerOutcome.err e)).1 = [AckAction.reject false] ∧
    Work (pre ++ HandlerOutcome.err e :: post) = Work pre ++ some e :: Work post := by
  refine ⟨rfl, ?_, rfl, ?_⟩ <;> simp [Work, Process, ProcessBody]

/-- C6: shouldCrawl returns true unless the skip policy says skip and the
item already exists: a non-existing item is always crawled regardless of
the skip policy, and an existing item is crawled exactly when the skip
policy does not say skip. -/
theorem C6_shouldCrawl (skip : Bool) (i : existingItem) :
    shouldCrawl skip i = !(skip && i.exists_) ∧
    shouldCrawl skip { i with exists_ := false } = true ∧
    shouldCrawl skip { i with exists_ := true } = !skip := by
  cases skip <;> cases h : i.exists_ <;> simp [shouldCrawl, h]

/-- C8: getExistingItem returns an error exactly when GetReferences does,
propagating it unchanged; on success the built item's exists flag is the
non-nilness of the returned reference collection — a non-nil empty
collection yields exists=true and a nil collection yields exists=false. -/
theorem C8_getExistingItem_exists (i : Indexable) (e : GoError)
    (refs : Option (List Reference)) (t : String) :
    getExistingItem (Except.error e) i = Except.error e ∧
    getExistingItem (Except.ok (refs, t)) i =
      Except.ok { toIndexable := i, exists_ := refs.isSome,
                  references := refs, itemType := t } ∧
    Option.isSome (some ([] : List Reference)) = true ∧
    Option.isSome (none : Option (List Reference)) = false := by
  exact ⟨rfl, rfl, rfl, rfl⟩

/-- C10: updateReferences modifies only the references field: the exists
flag, the itemType and the embedded Indexable (Hash, Name, ParentHash; the
Indexer capability is external to the state) are unchanged, and the prior
collection (empty when nil) is a prefix of the resulting collection. -/
theorem C10_updateReferences_frame (i : existingItem) :
    (updateReferences i).exists_ = i.exists_ ∧
    (updateReferences i).itemType = i.itemType ∧
    (updateReferences i).toIndexable = i.toIndexable ∧
    ∃ t, (updateReferences i).references = some (i.references.getD [] ++ t) :=
  ⟨updateReferences_exists i, updateReferences_itemType i,
    updateReferences_toIndexable i, updateReferences_references_append i⟩

/-- updateReferences is a no-op when some existing reference already carries
the candidate's ParentHash. -/
theorem updateReferences_of_mem (j : existingItem) (m : List Reference)
    (h : j.references = some m)
    (ha : (m.any fun reference => reference.ParentHash == j.ParentHash) = true) :
    updateReferences j = j := by
  rw [updateReferences_some j m h]
  by_cases hp : j.ParentHash = ""
  · rw [if_pos hp]
  · rw [if_neg hp, if_pos ha]

/-- C1: counterexample — on an item with nil references and a non-empty
ParentHash, updateReferences initializes the collection to empty and
returns, so the result is not the single-entry collection the claim
demands. -/
theorem C1_counterexample :
    (updateReferences { Hash := "QmFoo", Name := "bar", ParentHash := "QmParent",
                        exists_ := false, references := none, itemType := "" }).references = some [] ∧
    (updateReferences { Hash := "QmFoo", Name := "bar", ParentHash := "QmParent",
                        exists_ := false, references := none, itemType := "" }).references ≠
      some [{ Name := "bar", ParentHash := "QmParent" }] := by
  exact ⟨rfl, by decide⟩

/-- C1: amended — for every item whose references collection is nil before
the call, updateReferences leaves a non-nil empty collection and returns,
regardless of whether ParentHash is empty or not. -/
theorem C1_nil_initializes_empty (i : existingItem) (h : i.references = none) :
    (updateReferences i).references = some [] := by
  rw [updateReferences_none i h]

/-- C1 witness: the amended theorem applied at a concrete nil-references item. -/
theorem C1_nil_initializes_empty_witness :
    ({ Hash := "QmFoo", Name := "bar", ParentHash := "", exists_ := false,
       references := none, itemType := "" } : existingItem).references = none ∧
    (updateReferences { Hash := "QmFoo", Name := "bar", ParentHash := "",
                        exists_ := false, references := none, itemType := "" }).references = some [] :=
  ⟨rfl, C1_nil_initializes_empty _ rfl⟩

/-- C7: counterexample — updateReferences is not idempotent on every state:
starting from nil references with a non-empty ParentHash, the first call
yields the empty collection and the second call appends a reference. -/
theorem C7_counterexample :
    updateReferences (updateReferences
      { Hash := "QmX", Name := "dir", ParentHash := "QmQ",
        exists_ := false, references := none, itemType := "" }) ≠
    updateReferences
      { Hash := "QmX", Name := "dir", ParentHash := "QmQ",
        exists_ := false, references := none, itemType := "" } := by
  decide

/-- C7: amended — updateReferences is idempotent on every item whose
references collection is already non-nil, and when the item's ParentHash
matches an existing reference's parent the call is a no-op; only the
nil-collection state breaks idempotence. -/
theorem C7_idempotent_on_nonnil (i : existingItem) (l : List Reference)
    (h : i.references = some l) :
    updateReferences (updateReferences i) = updateReferences i ∧
    ((∃ r ∈ l, r.ParentHash = i.ParentHash) → updateReferences i = i) := by
  have hchar := updateReferences_some i l h
  by_cases hp : i.ParentHash = ""
  · rw [if_pos hp] at hchar
    exact ⟨by rw [hchar, hchar], fun _ => hchar⟩
  · rw [if_neg hp] at hchar
    by_cases ha : (l.any fun reference => reference.ParentHash == i.ParentHash) = true
    · rw [if_pos ha] at hchar
      exact ⟨by rw [hchar, hchar], fun _ => hchar⟩
    · rw [if_neg ha] at hchar
      refine ⟨?_, ?_⟩
      · rw [hchar]
        refine updateReferences_of_mem _
          (l ++ [{ Name := i.Name, ParentHash := i.ParentHash }]) rfl ?_
        simp
      · rintro ⟨r, hr, hpar⟩
        exact absurd (List.any_eq_true.mpr ⟨r, hr, by simp [hpar]⟩) ha

/-- C7 witness: the amended theorem at a concrete item whose collection
already holds a reference with the candidate's parent: both calls are
no-ops. -/
theorem C7_idempotent_on_nonnil_witness :
    updateReferences (updateReferences
      { Hash := "QmX", Name := "new", ParentHash := "QmP", exists_ := true,
        references := some [{ Name := "old", ParentHash := "QmP" }],
        itemType := "file" }) =
      updateReferences
        { Hash := "QmX", Name := "new", ParentHash := "QmP", exists_ := true,
          references := some [{ Name := "old", ParentHash := "QmP" }],
          itemType := "file" } ∧
    updateReferences
      { Hash := "QmX", Name := "new", ParentHash := "QmP", exists_ := true,
        references := some [{ Name := "old", ParentHash := "QmP" }],
        itemType := "file" } =
      { Hash := "QmX", Name := "new", ParentHash := "QmP", exists_ := true,
        references := some [{ Name := "old", ParentHash := "QmP" }],
        itemType := "file" } :=
  ⟨(C7_idempotent_on_nonnil _ [{ Name := "old", ParentHash := "QmP" }] rfl).1,
    (C7_idempotent_on_nonnil _ [{ Name := "old", ParentHash := "QmP" }] rfl).2
      ⟨{ Name := "old", ParentHash := "QmP" }, by simp, rfl⟩⟩

/-- C4: update first applies updateReferences unconditionally; then, iff the
item exists, it performs exactly one index write under the item's type and
hash, whose properties are the merged references and the last-seen
timestamp, and returns the index write's error verbatim; otherwise it
performs no index write and returns nil. -/
theorem C4_update_protocol (IndexItem : String → String → metadata → Option GoError)
    (nowISO : String) (i : existingItem) :
    (update IndexItem nowISO i).1 = updateReferences i ∧
    (update IndexItem nowISO i).2 =
      (if i.exists_ then
        ([{ itemType := i.itemType, Hash := i.Hash,
            properties := { references := (updateReferences i).references,
                            lastSeen := nowISO } }],
          IndexItem i.itemType i.Hash
            { references := (updateReferences i).references, lastSeen := nowISO })
      else ([], none)) := by
  cases hb : i.exists_ <;>
    simp [update, updateIndex, updateReferences_exists, updateReferences_itemType,
      updateReferences_toIndexable, hb]

/-- C9: updateReferences preserves the invariant that no two references
share a ParentHash, and a later merge under an already-present parent —
whatever the candidate's Name — is a no-op: nothing is added and no stored
name is updated. -/
theorem C9_parent_dedup_invariant (i : existingItem)
    (hnd : ∀ l, i.references = some l → (l.map Reference.ParentHash).Nodup) :
    (∀ l', (updateReferences i).references = some l' →
      (l'.map Reference.ParentHash).Nodup) ∧
    (∀ l r, i.references = some l → r ∈ l → r.ParentHash = i.ParentHash →
      updateReferences i = i) := by
  constructor
  · intro l' hl'
    rcases h : i.references with _ | l
    · rw [updateReferences_none i h] at hl'
      simp only [Option.some.injEq] at hl'
      simp [← hl']
    · rw [updateReferences_some i l h] at hl'
      by_cases hp : i.ParentHash = ""
      · rw [if_pos hp, h] at hl'
        simp only [Option.some.injEq] at hl'
        exact hl' ▸ hnd l h
      · rw [if_neg hp] at hl'
        by_cases ha : (l.any fun reference => reference.ParentHash == i.ParentHash) = true
        · rw [if_pos ha, h] at hl'
          simp only [Option.some.injEq] at hl'
          exact hl' ▸ hnd l h
        · rw [if_neg ha] at hl'
          simp only [Option.some.injEq] at hl'
          have hnotin : i.ParentHash ∉ l.map Reference.ParentHash := by
            intro hmem
            rcases List.mem_map.mp hmem with ⟨r, hr, hpar⟩
            exact absurd (List.any_eq_true.mpr ⟨r, hr, by simp [hpar]⟩) ha
          rw [← hl', List.map_append]
          refine List.Nodup.append (hnd l h) (by simp) ?_
          simp only [List.map_cons, List.map_nil]
          intro a hal har
          rw [List.mem_singleton] at har
          exact hnotin (har ▸ hal)
  · intro l r hl hr hpar
    exact updateReferences_of_mem i l hl
      (List.any_eq_true.mpr ⟨r, hr, by simp [hpar]⟩)

/-- C9 witness: the invariant theorem applied at a concrete item whose
single stored reference already carries the candidate's ParentHash. -/
theorem C9_parent_dedup_invariant_witness :
    (∀ l, ({ Hash := "QmX", Name := "new", ParentHash := "QmP", exists_ := true,
               references := some [{ Name := "old", ParentHash := "QmP" }],
               itemType := "file" } : existingItem).references = some l →
       (l.map Reference.ParentHash).Nodup) ∧
    ((∀ l', (updateReferences
        { Hash := "QmX", Name := "new", ParentHash := "QmP", exists_ := true,
          references := some [{ Name := "old", ParentHash := "QmP" }],
          itemType := "file" }).references = some l' →
        (l'.map Reference.ParentHash).Nodup) ∧
      (∀ l r, ({ Hash := "QmX", Name := "new", ParentHash := "QmP", exists_ := true,
                 references := some [{ Name := "old", ParentHash := "QmP" }],
                 itemType := "file" } : existingItem).references = some l → r ∈ l →
        r.ParentHash = ({ Hash := "QmX", Name := "new", ParentHash := "QmP",
                          exists_ := true,
                          references := some [{ Name := "old", ParentHash := "QmP" }],
                          itemType := "file" } : existingItem).ParentHash →
        updateReferences
          { Hash := "QmX", Name := "new", ParentHash := "QmP", exists_ := true,
            references := some [{ Name := "old", ParentHash := "QmP" }],
            itemType := "file" } =
          { Hash := "QmX", Name := "new", ParentHash := "QmP", exists_ := true,
            references := some [{ Name := "old", ParentHash := "QmP" }],
            itemType := "file" })) := by
  have hnd : ∀ l, ({ Hash := "QmX", Name := "new", ParentHash := "QmP",
                     exists_ := true,
                     references := some [{ Name := "old", ParentHash := "QmP" }],
                     itemType := "file" } : existingItem).references = some l →
      (l.map Reference.ParentHash).Nodup := by
    intro l hl
    have h2 : some [({ Name := "old", ParentHash := "QmP" } : Reference)] = some l := hl
    injection h2 with h3
    rw [← h3]
    decide
  exact ⟨hnd, C9_parent_dedup_invariant _ hnd⟩
